import Mathlib

/-
Verification of the quantum-kernel SVM classification core described by the
repository's design specification.  The repository's only source file is a
notebook that wires together calls into an external library; the components
below (kernel-matrix builder, one-vs-one reducer, SVM trainer, predictor,
orchestrator) are therefore modelled from the specification's own words, and
the notebook's concrete configuration constants are embedded directly.
-/

namespace QSVM

/-- Modelled from the spec: the named numerical tolerance constant (§4.3,
"e.g., 1e-6") used for the support-vector and on-margin thresholds. -/
def tol : ℚ := 1 / 1000000

/-- A data point is an ordered numeric vector (§3, DataPoint). -/
abbrev DataPoint := List ℚ

/-- A kernel matrix is a rectangular numeric matrix (§3, KernelMatrix). -/
abbrev Mat := List (List ℚ)

/-- Entry access for a kernel matrix, with zero default out of bounds. -/
def mget (M : Mat) (i j : ℕ) : ℚ := (M.getD i []).getD j 0

/-- Modelled from the spec: the error taxonomy of §7 relevant to kernel-matrix
construction (`DimensionMismatchError`, `KernelEvaluationError` with the
offending pair of indices). -/
inductive BuildError where
  | dimensionMismatch : BuildError
  | kernelEval : ℕ → ℕ → BuildError
deriving DecidableEq

/-- Modelled from the spec: the QP solver's failure mode
(`TrainingConvergenceError`, §7). -/
inductive TrainError where
  | trainingConvergence : TrainError
deriving DecidableEq

/-- All vectors have the same length as the first one (precondition of §4.1). -/
def dimsOk : List DataPoint → Bool
  | [] => true
  | v :: vs => vs.all (fun w => w.length = v.length)

/-- Effectful map over a list that aborts at the first error, used to model
"the whole matrix build aborts (no partial results)" (§7). -/
def exceptMap {ε α β : Type} (f : α → Except ε β) : List α → Except ε (List β)
  | [] => .ok []
  | x :: xs =>
    match f x with
    | .error e => .error e
    | .ok y =>
      match exceptMap f xs with
      | .error e => .error e
      | .ok ys => .ok (y :: ys)

/-- The kernel-evaluation capability misbehaves on a pair of vectors: it
raises (modelled as `none`, covering NaN) or returns a value outside [0,1]. -/
def kernelBad (κ : DataPoint → DataPoint → Option ℚ) (a b : DataPoint) : Prop :=
  κ a b = none ∨ ∃ q, κ a b = some q ∧ ¬(0 ≤ q ∧ q ≤ 1)

/-- Modelled from the spec: one invocation of the external kernel-evaluation
capability for the entry with indices `(i, j)`; a raised/NaN result or an
out-of-range value is surfaced as a `KernelEvaluationError` carrying the
offending pair of indices (§4.1, §7). -/
def evalKernel (κ : DataPoint → DataPoint → Option ℚ) (a b : DataPoint)
    (i j : ℕ) : Except BuildError ℚ :=
  match κ a b with
  | none => .error (.kernelEval i j)
  | some q => if 0 ≤ q ∧ q ≤ 1 then .ok q else .error (.kernelEval i j)

/-- Modelled from the spec: the entry of the kernel matrix at `(i, j)`.  In
symmetric mode the diagonal is fixed to 1 without invoking the capability and
the lower triangle mirrors the upper one (§4.1). -/
def evalEntry (κ : DataPoint → DataPoint → Option ℚ) (A B : List DataPoint)
    (symm : Bool) (i j : ℕ) : Except BuildError ℚ :=
  if symm then
    if i = j then .ok 1
    else if j < i then evalKernel κ (A.getD j []) (B.getD i []) j i
    else evalKernel κ (A.getD i []) (B.getD j []) i j
  else evalKernel κ (A.getD i []) (B.getD j []) i j

/-- Modelled from the spec: `buildKernelMatrix(setA, setB, symmetric)` (§4.1),
with the injected kernel-evaluation capability `κ`.  Checks the dimension
precondition, then produces every entry, aborting at the first failed one. -/
def buildKernelMatrix (κ : DataPoint → DataPoint → Option ℚ)
    (A B : List DataPoint) (symm : Bool) : Except BuildError Mat :=
  if dimsOk (A ++ B) then
    exceptMap
      (fun i => exceptMap (fun j => evalEntry κ A B symm i j) (List.range B.length))
      (List.range A.length)
  else .error .dimensionMismatch

/-- A well-behaved capability used in witnesses. -/
def kappaHalf : DataPoint → DataPoint → Option ℚ := fun _ _ => some (1 / 2)

/-- A capability that raises on equal arguments, used to witness that the
diagonal of a symmetric build is never evaluated. -/
def kappaHalfOffDiag : DataPoint → DataPoint → Option ℚ :=
  fun a b => if a = b then none else some (1 / 2)

/-- A capability returning the out-of-range value 2 everywhere. -/
def kappaTwo : DataPoint → DataPoint → Option ℚ := fun _ _ => some 2

/-- A concrete two-point set for witnesses. -/
def twoPoints : List DataPoint := [[0], [1]]

/-- Modelled from the spec: the trained binary model (§3, SVMModel): dual
coefficients, the binary labels of the subproblem, and the scalar bias. -/
structure SVMModel where
  alpha : List ℚ
  labels : List ℚ
  bias : ℚ
deriving DecidableEq

/-- Modelled from the spec: the derived support-vector set
`{i : α_i > numerical-tolerance}` of a trained model (§4.3). -/
def supportVectors (model : SVMModel) : Finset ℕ :=
  (Finset.range model.alpha.length).filter (fun i => tol < model.alpha.getD i 0)

/-- Modelled from the spec: `KernelSVMPredictor.decisionValue` (§4.4), the sum
of `α_i y_i kernelRow[i]` over the support vectors, plus the bias. -/
def decisionValue (model : SVMModel) (kernelRow : ℕ → ℚ) : ℚ :=
  (∑ i ∈ supportVectors model,
    model.alpha.getD i 0 * model.labels.getD i 0 * kernelRow i) + model.bias

/-- Modelled from the spec: `predict` is the sign of the decision value, with
a decision value of exactly 0 mapped to +1 (§4.4). -/
def predict (model : SVMModel) (kernelRow : ℕ → ℚ) : ℤ :=
  if 0 ≤ decisionValue model kernelRow then 1 else -1

/-- The decision-function value at training point `k` from the full
coefficient vector, used inside the QP solver and the bias computation. -/
def fSum (K : Mat) (alpha y : List ℚ) (k : ℕ) : ℚ :=
  ∑ l ∈ Finset.range alpha.length, alpha.getD l 0 * y.getD l 0 * mget K l k

/-- Modelled from the spec: one analytic SMO pair update for the dual QP of
§4.3 (any standard QP solver is acceptable there); the update keeps the box
constraint by clipping and the equality constraint by construction. -/
def smoPair (K : Mat) (y : List ℚ) (C : ℚ) (alpha : List ℚ) (i j : ℕ) : List ℚ :=
  let ai := alpha.getD i 0
  let aj := alpha.getD j 0
  let yi := y.getD i 0
  let yj := y.getD j 0
  let eta := mget K i i + mget K j j - 2 * mget K i j
  if eta ≤ 0 then alpha
  else
    let ei := fSum K alpha y i - yi
    let ej := fSum K alpha y j - yj
    let ajNew := aj + yj * (ei - ej) / eta
    let lo := if yi = yj then max 0 (ai + aj - C) else max 0 (aj - ai)
    let hb := if yi = yj then min C (ai + aj) else min C (C + aj - ai)
    let ajC := min hb (max lo ajNew)
    let aiC := ai + yi * yj * (aj - ajC)
    (alpha.set i aiC).set j ajC

/-- All index pairs (i, j) with i < j < m, in deterministic order. -/
def indexPairs (m : ℕ) : List (ℕ × ℕ) :=
  (List.range m).foldr
    (fun i acc => (((List.range m).filter (fun j => i < j)).map (fun j => (i, j))) ++ acc) []

/-- One full sweep of SMO pair updates over all index pairs. -/
def smoSweep (K : Mat) (y : List ℚ) (C : ℚ) (alpha : List ℚ) : List ℚ :=
  (indexPairs alpha.length).foldl (fun a p => smoPair K y C a p.1 p.2) alpha

/-- Iterated SMO sweeps within the configured iteration budget (§4.3). -/
def smoRun (K : Mat) (y : List ℚ) (C : ℚ) : ℕ → List ℚ → List ℚ
  | 0, a => a
  | n + 1, a => smoRun K y C n (smoSweep K y C a)

/-- Modelled from the spec: the on-margin support vectors, i.e. those with
`0 < α_i < C` up to the named numerical tolerance (§4.3, §8). -/
def onMargin (alpha : List ℚ) (C : ℚ) : Finset ℕ :=
  (Finset.range alpha.length).filter
    (fun i => tol < alpha.getD i 0 ∧ alpha.getD i 0 < C - tol)

/-- The support-vector indices of a raw coefficient vector. -/
def svIndices (alpha : List ℚ) : Finset ℕ :=
  (Finset.range alpha.length).filter (fun i => tol < alpha.getD i 0)

/-- Modelled from the spec: the bias is the averaged margin of the on-margin
support vectors, falling back to averaging over all support vectors when none
is strictly on margin (§4.3). -/
def computeBias (K : Mat) (y alpha : List ℚ) (C : ℚ) : ℚ :=
  let idx := if (onMargin alpha C).Nonempty then onMargin alpha C else svIndices alpha
  (∑ i ∈ idx, (y.getD i 0 - fSum K alpha y i)) / idx.card

/-- Modelled from the spec: the trainer's output contract (§4.3, §8): the box
constraint `0 ≤ α_i ≤ C`, the equality constraint `Σ α_i y_i = 0`, the
on-margin KKT property of strictly-inside support vectors, and the margin
property of non-support vectors. -/
def trainValid (K : Mat) (y : List ℚ) (C : ℚ) (model : SVMModel) : Prop :=
  (∀ i ∈ Finset.range model.alpha.length,
      0 ≤ model.alpha.getD i 0 ∧ model.alpha.getD i 0 ≤ C) ∧
  (∑ i ∈ Finset.range model.alpha.length, model.alpha.getD i 0 * y.getD i 0) = 0 ∧
  (∀ i ∈ onMargin model.alpha C,
      |decisionValue model (fun l => mget K l i) * y.getD i 0 - 1| ≤ tol) ∧
  (∀ i ∈ Finset.range model.alpha.length, model.alpha.getD i 0 ≤ tol →
      1 - tol ≤ y.getD i 0 * decisionValue model (fun l => mget K l i))

instance (K : Mat) (y : List ℚ) (C : ℚ) (model : SVMModel) :
    Decidable (trainValid K y C model) := by
  unfold trainValid
  infer_instance

/-- Modelled from the spec: `KernelSVMTrainer` (§4.3).  Runs SMO-style
coordinate ascent on the dual QP within the iteration budget, computes the
bias, and checks the KKT contract, reporting `TrainingConvergenceError` when
the contract is not met (the contract is on the optimality conditions, not
the solver internals). -/
def train (passes : ℕ) (K : Mat) (y : List ℚ) (C : ℚ) : Except TrainError SVMModel :=
  let alpha := smoRun K y C passes (List.replicate y.length 0)
  let model : SVMModel := ⟨alpha, y, computeBias K y alpha C⟩
  if trainValid K y C model then .ok model else .error .trainingConvergence

/-- Modelled from the spec: `enumeratePairs` (§4.2): all unordered class
pairs in the deterministic order of the ClassLabelIndex. -/
def enumeratePairs (classLabels : List String) : List (String × String) :=
  (indexPairs classLabels.length).map
    (fun p => (classLabels.getD p.1 "", classLabels.getD p.2 ""))

/-- The winning class index of one pairwise contest given the binary decision
in {-1,+1}: +1 elects the pair's first class, -1 its second. -/
def contestWinner (c : (ℕ × ℕ) × ℤ) : ℕ := if c.2 = 1 then c.1.1 else c.1.2

/-- Votes received by class index `c` across the pairwise contests. -/
def votes (contests : List ((ℕ × ℕ) × ℤ)) (c : ℕ) : ℕ :=
  (contests.map contestWinner).count c

/-- Modelled from the spec: run every pairwise binary predictor for a query
(§4.2); `models` gives the trained model per pair and `rows` the kernel row
between the query and each pair's support vectors. -/
def runContests (models : ℕ × ℕ → SVMModel) (rows : ℕ × ℕ → ℕ → ℚ) (k : ℕ) :
    List ((ℕ × ℕ) × ℤ) :=
  (indexPairs k).map (fun p => (p, predict (models p) (rows p)))

/-- The class index with the most votes; ties broken by lowest class index. -/
def predictMulticlassIdx (k : ℕ) (contests : List ((ℕ × ℕ) × ℤ)) : ℕ :=
  (List.range k).foldl
    (fun best c => if votes contests best < votes contests c then c else best) 0

/-- Modelled from the spec: `predictMulticlass` (§4.2): majority vote over
the one-vs-one contests with the deterministic lowest-index tie-break. -/
def predictMulticlass (classLabels : List String) (models : ℕ × ℕ → SVMModel)
    (rows : ℕ × ℕ → ℕ → ℚ) : String :=
  classLabels.getD (predictMulticlassIdx classLabels.length
    (runContests models rows classLabels.length)) ""

/-- Modelled from the spec: a Dataset maps each class, in ClassLabelIndex
order, to its ordered training vectors (§3). -/
abbrev Dataset := List (String × List DataPoint)

/-- All training vectors of the dataset, concatenated in class order. -/
def allVectors (ds : Dataset) : List DataPoint :=
  (ds.map (fun c => c.2)).foldr (· ++ ·) []

/-- Number of training vectors of class `c`. -/
def classSize (ds : Dataset) (c : ℕ) : ℕ := (ds.getD c ("", [])).2.length

/-- Offset of class `c`'s block inside the shared training Gram matrix. -/
def classOffset (ds : Dataset) (c : ℕ) : ℕ :=
  (((ds.take c).map (fun x => x.2.length)).foldr (· + ·) 0)

/-- The shared-Gram-matrix row/column indices of the pair's subproblem. -/
def pairIndices (ds : Dataset) (a b : ℕ) : List ℕ :=
  ((List.range (classSize ds a)).map (fun t => classOffset ds a + t)) ++
  ((List.range (classSize ds b)).map (fun t => classOffset ds b + t))

/-- The pair's binary labels: +1 for the first class, -1 for the second. -/
def pairLabels (ds : Dataset) (a b : ℕ) : List ℚ :=
  List.replicate (classSize ds a) 1 ++ List.replicate (classSize ds b) (-1)

/-- The sub-block of the shared Gram matrix at the given indices. -/
def subMatrix (M : Mat) (idx : List ℕ) : Mat :=
  idx.map (fun i => idx.map (fun j => mget M i j))

/-- Modelled from the spec: training of one binary subproblem, restricted
from the shared training Gram matrix (§3 BinarySubproblem, §4.2). -/
def trainPair (passes : ℕ) (C : ℚ) (gram : Mat) (ds : Dataset) (p : ℕ × ℕ) :
    Except TrainError SVMModel :=
  train passes (subMatrix gram (pairIndices ds p.1 p.2)) (pairLabels ds p.1 p.2) C

/-- Modelled from the spec: the Orchestrator's training phase (§4.5, §7).
The shared training Gram matrix is built once and its failure is fatal to the
run; then every pair is trained independently and the per-pair outcomes —
failures alongside successes — are aggregated into a single report. -/
def orchestrate (κ : DataPoint → DataPoint → Option ℚ) (passes : ℕ) (C : ℚ)
    (ds : Dataset) :
    Except BuildError (List ((ℕ × ℕ) × Except TrainError SVMModel)) :=
  match buildKernelMatrix κ (allVectors ds) (allVectors ds) true with
  | .error e => .error e
  | .ok gram =>
    .ok ((indexPairs ds.length).map (fun p => (p, trainPair passes C gram ds p)))

/-- Modelled from the spec: a whole run keyed by the pseudo-random seed; the
seed is threaded through to the kernel-evaluation capability (§5, §9), which
is a deterministic function of it. -/
def seededRun (κfam : ℕ → DataPoint → DataPoint → Option ℚ) (seed passes : ℕ)
    (C : ℚ) (ds : Dataset) :
    Except BuildError (List ((ℕ × ℕ) × Except TrainError SVMModel)) :=
  orchestrate (κfam seed) passes C ds

/-- A capability giving kernel value 1 between the first and third witness
vectors and 0 between the other distinct pairs. -/
def kappaThree : DataPoint → DataPoint → Option ℚ :=
  fun a b => if a = [0] ∧ b = [2] then some 1 else some 0

/-- A three-class dataset with one training vector per class. -/
def threeClassData : Dataset := [("A", [[0]]), ("B", [[1]]), ("C", [[2]])]

/-- Pairwise models for the three-class tie witness: the pair (0,2) elects
its second class, the other pairs elect their first class. -/
def tieModels : ℕ × ℕ → SVMModel :=
  fun p => if p = (0, 2) then ⟨[1], [1], -2⟩ else ⟨[1], [1], 0⟩

/-- The notebook's `feature_dim = 2` (qsvm_kernel_classification.ipynb, cell
"feature_dim=2 # we support feature_dim 2 or 3"). -/
def feature_dim : ℕ := 2

/-- The first experiment generates `ad_hoc_data` with `n=feature_dim`, so its
data vectors have dimension `feature_dim`. -/
def experiment1_data_dim : ℕ := feature_dim

/-- The first experiment constructs
`SecondOrderExpansion(num_qubits=feature_dim, depth=2, entanglement='linear')`. -/
def experiment1_num_qubits : ℕ := feature_dim

/-- The second experiment generates `Breast_cancer` with `n=2`, so its data
vectors have dimension 2. -/
def experiment2_data_dim : ℕ := 2

/-- The second experiment's feature map reuses the leftover `feature_dim`
variable: `SecondOrderExpansion(num_qubits=feature_dim, ...)`. -/
def experiment2_num_qubits : ℕ := feature_dim

/-- Modelled from the spec: the dimension-match precondition of kernel
construction, whose failure is `DimensionMismatchError` (§7). -/
def dimensionCheck (dataDim numQubits : ℕ) : Except BuildError Unit :=
  if dataDim = numQubits then .ok () else .error .dimensionMismatch

theorem exceptMap_ok_length {ε α β : Type} {f : α → Except ε β} :
    ∀ {l : List α} {ys : List β}, exceptMap f l = .ok ys → ys.length = l.length := by
  intro l
  induction l with
  | nil => intro ys h; simp [exceptMap] at h; simp [← h]
  | cons x xs ih =>
    intro ys h
    simp only [exceptMap] at h
    cases hx : f x with
    | error e => rw [hx] at h; exact absurd h (by simp)
    | ok y =>
      rw [hx] at h
      cases hxs : exceptMap f xs with
      | error e => rw [hxs] at h; exact absurd h (by simp)
      | ok ys' =>
        rw [hxs] at h
        simp only [Except.ok.injEq] at h
        subst h
        simp [ih hxs]

theorem exceptMap_ok_getD {ε α β : Type} {f : α → Except ε β} (d : α) (d' : β) :
    ∀ {l : List α} {ys : List β}, exceptMap f l = .ok ys →
      ∀ k, k < l.length → f (l.getD k d) = .ok (ys.getD k d') := by
  intro l
  induction l with
  | nil => intro ys _ k hk; simp at hk
  | cons x xs ih =>
    intro ys h k hk
    simp only [exceptMap] at h
    cases hx : f x with
    | error e => rw [hx] at h; exact absurd h (by simp)
    | ok y =>
      rw [hx] at h
      cases hxs : exceptMap f xs with
      | error e => rw [hxs] at h; exact absurd h (by simp)
      | ok ys' =>
        rw [hxs] at h
        simp only [Except.ok.injEq] at h
        subst h
        cases k with
        | zero => simpa using hx
        | succ k => exact ih hxs k (by simpa using hk)

theorem exceptMap_error_mem {ε α β : Type} {f : α → Except ε β} :
    ∀ {l : List α} {e : ε}, exceptMap f l = .error e → ∃ x ∈ l, f x = .error e := by
  intro l
  induction l with
  | nil => intro e h; simp [exceptMap] at h
  | cons x xs ih =>
    intro e h
    simp only [exceptMap] at h
    cases hx : f x with
    | error e' =>
      rw [hx] at h
      simp only [Except.error.injEq] at h
      exact ⟨x, by simp, by rw [hx, h]⟩
    | ok y =>
      rw [hx] at h
      cases hxs : exceptMap f xs with
      | error e' =>
        rw [hxs] at h
        simp only [Except.error.injEq] at h
        obtain ⟨z, hz, hfz⟩ := ih (e := e') hxs
        exact ⟨z, by simp [hz], by rw [hfz, h]⟩
      | ok ys => rw [hxs] at h; exact absurd h (by simp)

theorem exceptMap_congr {ε α β : Type} {f g : α → Except ε β} :
    ∀ {l : List α}, (∀ x ∈ l, f x = g x) → exceptMap f l = exceptMap g l := by
  intro l
  induction l with
  | nil => intro _; rfl
  | cons x xs ih =>
    intro h
    simp only [exceptMap]
    rw [h x (by simp), ih (fun z hz => h z (by simp [hz]))]

theorem getD_range {n k : ℕ} (d : ℕ) (hk : k < n) : (List.range n).getD k d = k := by
  rw [List.getD_eq_getElem?_getD, List.getElem?_range hk]
  rfl

/-- On success, the built matrix has the full m×n shape and every entry is the
value produced by `evalEntry`. -/
theorem build_ok_entry {κ : DataPoint → DataPoint → Option ℚ}
    {A B : List DataPoint} {symm : Bool} {K : Mat}
    (h : buildKernelMatrix κ A B symm = .ok K) :
    K.length = A.length ∧
    (∀ i, i < A.length → (K.getD i []).length = B.length) ∧
    (∀ i, i < A.length → ∀ j, j < B.length →
      evalEntry κ A B symm i j = .ok (mget K i j)) := by
  unfold buildKernelMatrix at h
  split at h
  case isFalse => exact absurd h (by simp)
  case isTrue hdim =>
    refine ⟨by simpa using exceptMap_ok_length h, ?_, ?_⟩
    · intro i hi
      have hrow := exceptMap_ok_getD 0 ([] : List ℚ) h i (by simpa using hi)
      rw [getD_range 0 hi] at hrow
      simpa using exceptMap_ok_length hrow
    · intro i hi j hj
      have hrow := exceptMap_ok_getD 0 ([] : List ℚ) h i (by simpa using hi)
      rw [getD_range 0 hi] at hrow
      have hcell := exceptMap_ok_getD 0 (0 : ℚ) hrow j (by simpa using hj)
      rw [getD_range 0 hj] at hcell
      exact hcell

theorem evalKernel_error {κ : DataPoint → DataPoint → Option ℚ}
    {a b : DataPoint} {i j : ℕ} {e : BuildError}
    (h : evalKernel κ a b i j = .error e) :
    e = .kernelEval i j ∧ kernelBad κ a b := by
  unfold evalKernel at h
  split at h
  next hk =>
    simp only [Except.error.injEq] at h
    exact ⟨h.symm, Or.inl hk⟩
  next q hk =>
    split at h
    next => exact absurd h (by simp)
    next hq =>
      simp only [Except.error.injEq] at h
      exact ⟨h.symm, Or.inr ⟨q, hk, hq⟩⟩

theorem evalKernel_ok {κ : DataPoint → DataPoint → Option ℚ}
    {a b : DataPoint} {i j : ℕ} {q : ℚ}
    (h : evalKernel κ a b i j = .ok q) :
    κ a b = some q ∧ 0 ≤ q ∧ q ≤ 1 := by
  unfold evalKernel at h
  split at h
  next => exact absurd h (by simp)
  next q' hk =>
    split at h
    next hq => simp only [Except.ok.injEq] at h; subst h; exact ⟨hk, hq⟩
    next => exact absurd h (by simp)

theorem evalEntry_error {κ : DataPoint → DataPoint → Option ℚ}
    {A B : List DataPoint} {symm : Bool} {i j : ℕ} {e : BuildError}
    (h : evalEntry κ A B symm i j = .error e) :
    ∃ p q, e = .kernelEval p q ∧ kernelBad κ (A.getD p []) (B.getD q []) := by
  unfold evalEntry at h
  split at h
  case isTrue =>
    split at h
    case isTrue => exact absurd h (by simp)
    case isFalse =>
      split at h
      case isTrue =>
        obtain ⟨he, hb⟩ := evalKernel_error h
        exact ⟨j, i, he, hb⟩
      case isFalse =>
        obtain ⟨he, hb⟩ := evalKernel_error h
        exact ⟨i, j, he, hb⟩
  case isFalse =>
    obtain ⟨he, hb⟩ := evalKernel_error h
    exact ⟨i, j, he, hb⟩

instance {ε α : Type} [DecidableEq ε] [DecidableEq α] : DecidableEq (Except ε α) := by
  intro x y
  cases x <;> cases y
  case error.error e f =>
    exact if h : e = f then .isTrue (by rw [h])
      else .isFalse (by intro hc; cases hc; exact h rfl)
  case error.ok e a => exact .isFalse (by intro hc; cases hc)
  case ok.error a e => exact .isFalse (by intro hc; cases hc)
  case ok.ok a b =>
    exact if h : a = b then .isTrue (by rw [h])
      else .isFalse (by intro hc; cases hc; exact h rfl)

theorem evalKernel_congr {κ κ' : DataPoint → DataPoint → Option ℚ}
    {a b : DataPoint} (i j : ℕ) (h : κ a b = κ' a b) :
    evalKernel κ a b i j = evalKernel κ' a b i j := by
  unfold evalKernel
  rw [h]

theorem evalEntry_symm (κ : DataPoint → DataPoint → Option ℚ)
    (S : List DataPoint) (i j : ℕ) :
    evalEntry κ S S true i j = evalEntry κ S S true j i := by
  unfold evalEntry
  rcases lt_trichotomy i j with h | h | h
  · simp [h.ne, h.ne', h, Nat.lt_asymm h]
  · simp [h]
  · simp [h.ne, h.ne', h, Nat.lt_asymm h]

theorem evalEntry_agree {κ κ' : DataPoint → DataPoint → Option ℚ}
    {S : List DataPoint}
    (hagree : ∀ p, p < S.length → ∀ q, q < S.length → p < q →
        κ (S.getD p []) (S.getD q []) = κ' (S.getD p []) (S.getD q []))
    (i j : ℕ) (hi : i < S.length) (hj : j < S.length) :
    evalEntry κ S S true i j = evalEntry κ' S S true i j := by
  unfold evalEntry
  rcases lt_trichotomy i j with h | h | h
  · simp [h.ne, Nat.lt_asymm h]
    exact evalKernel_congr i j (by simpa using hagree i hi j hj h)
  · simp [h]
  · simp [h.ne', h]
    exact evalKernel_congr j i (by simpa using hagree j hj i hi h)

/-- C3: for a symmetric build over a single ordered sequence `S`, a successful
result is exactly symmetric, every diagonal entry is exactly 1, and the result
depends only on the capability's values at strictly-upper-triangle index pairs
(so diagonal and lower-triangle entries never come from a capability call). -/
theorem c3_symmetric_build (κ κ' : DataPoint → DataPoint → Option ℚ)
    (S : List DataPoint) (K : Mat)
    (hok : buildKernelMatrix κ S S true = .ok K)
    (hagree : ∀ p, p < S.length → ∀ q, q < S.length → p < q →
        κ (S.getD p []) (S.getD q []) = κ' (S.getD p []) (S.getD q [])) :
    (∀ i, i < S.length → ∀ j, j < S.length → mget K i j = mget K j i) ∧
    (∀ i, i < S.length → mget K i i = 1) ∧
    buildKernelMatrix κ' S S true = .ok K := by
  obtain ⟨hlen, hrow, hentry⟩ := build_ok_entry hok
  refine ⟨?_, ?_, ?_⟩
  · intro i hi j hj
    have h1 := hentry i hi j hj
    have h2 := hentry j hj i hi
    rw [evalEntry_symm] at h1
    rw [h1] at h2
    simpa using h2
  · intro i hi
    have h1 := hentry i hi i hi
    unfold evalEntry at h1
    simp only [if_pos rfl, if_true] at h1
    simpa using h1.symm
  · rw [← hok]
    unfold buildKernelMatrix
    by_cases hd : dimsOk (S ++ S) = true
    · rw [if_pos hd, if_pos hd]
      apply exceptMap_congr
      intro i hi
      apply exceptMap_congr
      intro j hj
      exact (evalEntry_agree hagree i j (List.mem_range.mp hi) (List.mem_range.mp hj)).symm
    · rw [if_neg hd, if_neg hd]

/-- C7: a successful build is a complete matrix whose every entry comes from a
successful, in-range capability evaluation (no silent defaults); a failed
build, given consistent dimensions, surfaces a `KernelEvaluationError`
carrying an offending pair of indices at which the capability misbehaved; and
any required entry whose evaluation fails makes the whole build abort with an
error rather than produce a partial result. -/
theorem c7_kernel_error_propagation (κ : DataPoint → DataPoint → Option ℚ)
    (A B : List DataPoint) (symm : Bool) :
    (∀ K, buildKernelMatrix κ A B symm = .ok K →
        K.length = A.length ∧
        (∀ i, i < A.length → (K.getD i []).length = B.length) ∧
        (∀ i, i < A.length → ∀ j, j < B.length →
          evalEntry κ A B symm i j = .ok (mget K i j))) ∧
    (∀ a b i j q, evalKernel κ a b i j = .ok q → κ a b = some q ∧ 0 ≤ q ∧ q ≤ 1) ∧
    (dimsOk (A ++ B) = true → ∀ e, buildKernelMatrix κ A B symm = .error e →
        ∃ p q, e = .kernelEval p q ∧ kernelBad κ (A.getD p []) (B.getD q [])) ∧
    (dimsOk (A ++ B) = true →
      ∀ i j, i < A.length → j < B.length →
        (∀ q, evalEntry κ A B symm i j ≠ .ok q) →
        ∃ e, buildKernelMatrix κ A B symm = .error e) := by
  refine ⟨fun K h => build_ok_entry h, fun a b i j q h => evalKernel_ok h, ?_, ?_⟩
  · intro hd e h
    unfold buildKernelMatrix at h
    rw [if_pos hd] at h
    obtain ⟨i, _, hrow⟩ := exceptMap_error_mem h
    obtain ⟨j, _, hcell⟩ := exceptMap_error_mem hrow
    exact evalEntry_error hcell
  · intro hd i j hi hj hbad
    cases hb : buildKernelMatrix κ A B symm with
    | error e => exact ⟨e, rfl⟩
    | ok K =>
      obtain ⟨_, _, hentry⟩ := build_ok_entry hb
      exact absurd (hentry i hi j hj) (hbad (mget K i j))

theorem c3_symmetric_build_witness :
    buildKernelMatrix kappaHalfOffDiag twoPoints twoPoints true
      = .ok [[1, 1 / 2], [1 / 2, 1]] ∧
    mget [[1, 1 / 2], [1 / 2, 1]] 0 1 = mget [[1, 1 / 2], [1 / 2, 1]] 1 0 ∧
    mget [[1, 1 / 2], [1 / 2, 1]] 0 0 = 1 := by
  have h := c3_symmetric_build kappaHalf kappaHalfOffDiag twoPoints
      [[1, 1 / 2], [1 / 2, 1]]
      (by with_unfolding_all decide) (by with_unfolding_all decide)
  exact ⟨h.2.2, h.1 0 (by decide) 1 (by decide), h.2.1 0 (by decide)⟩

theorem c7_kernel_error_propagation_witness :
    ∃ p q, BuildError.kernelEval 0 0 = BuildError.kernelEval p q ∧
      kernelBad kappaTwo ([[0]].getD p []) ([[1]].getD q []) :=
  (c7_kernel_error_propagation kappaTwo [[0]] [[1]] false).2.2.1
    (by with_unfolding_all decide) (BuildError.kernelEval 0 0)
    (by with_unfolding_all decide)

theorem smoPair_length (K : Mat) (y : List ℚ) (C : ℚ) (alpha : List ℚ) (i j : ℕ) :
    (smoPair K y C alpha i j).length = alpha.length := by
  unfold smoPair
  dsimp only
  split
  · rfl
  · simp

theorem smoFold_length (K : Mat) (y : List ℚ) (C : ℚ) :
    ∀ (l : List (ℕ × ℕ)) (a : List ℚ),
      (l.foldl (fun a p => smoPair K y C a p.1 p.2) a).length = a.length := by
  intro l
  induction l with
  | nil => intro a; rfl
  | cons p l ih => intro a; rw [List.foldl_cons, ih, smoPair_length]

theorem smoSweep_length (K : Mat) (y : List ℚ) (C : ℚ) (a : List ℚ) :
    (smoSweep K y C a).length = a.length :=
  smoFold_length K y C (indexPairs a.length) a

theorem smoRun_length (K : Mat) (y : List ℚ) (C : ℚ) :
    ∀ (n : ℕ) (a : List ℚ), (smoRun K y C n a).length = a.length := by
  intro n
  induction n with
  | zero => intro a; rfl
  | succ n ih => intro a; rw [smoRun, ih, smoSweep_length]

theorem train_ok_valid {passes : ℕ} {K : Mat} {y : List ℚ} {C : ℚ}
    {model : SVMModel} (hok : train passes K y C = .ok model) :
    trainValid K y C model ∧ model.labels = y ∧
    model.alpha = smoRun K y C passes (List.replicate y.length 0) := by
  unfold train at hok
  dsimp only at hok
  split at hok
  next hv =>
    simp only [Except.ok.injEq] at hok
    subst hok
    exact ⟨hv, rfl, rfl⟩
  next => exact absurd hok (by simp)

theorem train_ok_shape {passes : ℕ} {K : Mat} {y : List ℚ} {C : ℚ}
    {model : SVMModel} (hok : train passes K y C = .ok model) :
    model.alpha.length = y.length := by
  obtain ⟨-, -, ha⟩ := train_ok_valid hok
  rw [ha, smoRun_length, List.length_replicate]

/-- C1: when the trainer returns on a kernel matrix and {-1,+1}-labels with
regularization constant C, the coefficient vector has one entry per label and
every entry lies in [0, C]; the support-vector set is exactly the set of
indices with coefficient above the numerical tolerance; every support vector
strictly inside the box is on margin up to the tolerance; and every
non-support vector has margin at least 1 − tolerance. -/
theorem c1_trainer_kkt (passes : ℕ) (K : Mat) (y : List ℚ) (C : ℚ)
    (model : SVMModel) (hok : train passes K y C = .ok model) :
    model.alpha.length = y.length ∧
    (∀ i, i < model.alpha.length →
        0 ≤ model.alpha.getD i 0 ∧ model.alpha.getD i 0 ≤ C) ∧
    supportVectors model
      = (Finset.range model.alpha.length).filter (fun i => tol < model.alpha.getD i 0) ∧
    (∀ i ∈ supportVectors model, model.alpha.getD i 0 < C - tol →
        |decisionValue model (fun l => mget K l i) * y.getD i 0 - 1| ≤ tol) ∧
    (∀ i, i < model.alpha.length → model.alpha.getD i 0 ≤ tol →
        1 - tol ≤ y.getD i 0 * decisionValue model (fun l => mget K l i)) := by
  obtain ⟨⟨hbox, heq, hmargin, hnsv⟩, hlab, ha⟩ := train_ok_valid hok
  refine ⟨train_ok_shape hok, ?_, rfl, ?_, ?_⟩
  · intro i hi
    exact hbox i (Finset.mem_range.mpr hi)
  · intro i hiSV hlt
    apply hmargin
    unfold supportVectors at hiSV
    unfold onMargin
    rw [Finset.mem_filter] at hiSV ⊢
    exact ⟨hiSV.1, hiSV.2, hlt⟩
  · intro i hi hle
    exact hnsv i (Finset.mem_range.mpr hi) hle

theorem c1_trainer_kkt_witness :
    (SVMModel.mk [1, 1] [1, -1] 0).alpha.length = ([1, -1] : List ℚ).length ∧
    (∀ i, i < (SVMModel.mk [1, 1] [1, -1] 0).alpha.length →
        0 ≤ (SVMModel.mk [1, 1] [1, -1] 0).alpha.getD i 0 ∧
        (SVMModel.mk [1, 1] [1, -1] 0).alpha.getD i 0 ≤ 1) ∧
    supportVectors (SVMModel.mk [1, 1] [1, -1] 0)
      = (Finset.range (SVMModel.mk [1, 1] [1, -1] 0).alpha.length).filter
          (fun i => tol < (SVMModel.mk [1, 1] [1, -1] 0).alpha.getD i 0) ∧
    (∀ i ∈ supportVectors (SVMModel.mk [1, 1] [1, -1] 0),
        (SVMModel.mk [1, 1] [1, -1] 0).alpha.getD i 0 < 1 - tol →
        |decisionValue (SVMModel.mk [1, 1] [1, -1] 0)
            (fun l => mget [[1, 0], [0, 1]] l i) * ([1, -1] : List ℚ).getD i 0 - 1| ≤ tol) ∧
    (∀ i, i < (SVMModel.mk [1, 1] [1, -1] 0).alpha.length →
        (SVMModel.mk [1, 1] [1, -1] 0).alpha.getD i 0 ≤ tol →
        1 - tol ≤ ([1, -1] : List ℚ).getD i 0 * decisionValue (SVMModel.mk [1, 1] [1, -1] 0)
            (fun l => mget [[1, 0], [0, 1]] l i)) :=
  c1_trainer_kkt 1 [[1, 0], [0, 1]] [1, -1] 1 ⟨[1, 1], [1, -1], 0⟩
    (by with_unfolding_all decide)

/-- C2: the decision value equals the sum of `α_i y_i kernelRow[i]` over all
training indices in which only support vectors contribute (non-support
vectors contribute zero), plus the bias; `predict` takes values in {-1, +1},
equals +1 exactly when the decision value is nonnegative, and in particular
maps a decision value of exactly zero to +1. -/
theorem c2_decision_predict (model : SVMModel) (kernelRow : ℕ → ℚ) :
    decisionValue model kernelRow =
      (∑ i ∈ Finset.range model.alpha.length,
        if tol < model.alpha.getD i 0 then
          model.alpha.getD i 0 * model.labels.getD i 0 * kernelRow i
        else 0) + model.bias ∧
    (predict model kernelRow = 1 ∨ predict model kernelRow = -1) ∧
    (predict model kernelRow = 1 ↔ 0 ≤ decisionValue model kernelRow) ∧
    (decisionValue model kernelRow = 0 → predict model kernelRow = 1) := by
  refine ⟨?_, ?_, ?_, ?_⟩
  · unfold decisionValue supportVectors
    rw [Finset.sum_filter]
  · unfold predict
    split
    · exact Or.inl rfl
    · exact Or.inr rfl
  · unfold predict
    split
    next h => simpa using h
    next h => simpa using h
  · intro h
    unfold predict
    rw [h]
    simp

theorem c2_decision_predict_witness :
    predict ⟨[1], [1], 0⟩ (fun _ => 0) = 1 :=
  (c2_decision_predict ⟨[1], [1], 0⟩ (fun _ => 0)).2.2.2 (by with_unfolding_all decide)

/-- C9 counterexample: the claim fails on two concrete single-sample-class
subproblems.  When the two classes' vectors coincide (kernel row constantly
one), the trainer reports `TrainingConvergenceError` instead of returning a
degenerate model; and with C = 2 the trainer returns a model in which the
single-sample class's coefficient is 1, not C. -/
theorem c9_single_sample_counterexample :
    train 1 [[1, 1], [1, 1]] [1, -1] 1 = .error .trainingConvergence ∧
    ∃ model, train 1 [[1, 0], [0, 1]] [1, -1] 2 = .ok model ∧
      model.alpha.getD 0 0 ≠ 2 := by
  refine ⟨by with_unfolding_all decide, ⟨[1, 1], [1, -1], 0⟩, ?_, ?_⟩
  · with_unfolding_all decide
  · with_unfolding_all decide

/-- C9 (amended): on a binary subproblem in which one class contributes
exactly one vector, whenever the trainer returns a model (it may instead
report `TrainingConvergenceError`), the single-sample class's vector is a
support vector with tolerance < α ≤ C, and the bias is an exact rational
(hence finite) by construction. -/
theorem c9_single_sample_amended (passes : ℕ) (K : Mat) (y : List ℚ) (C : ℚ)
    (s : ℚ) (i0 j0 : ℕ) (model : SVMModel)
    (hok : train passes K y C = .ok model)
    (hs : s = 1 ∨ s = -1)
    (hi0 : i0 < y.length) (hyi0 : y.getD i0 0 = s)
    (hrest : ∀ j, j < y.length → j ≠ i0 → y.getD j 0 = -s)
    (hj0 : j0 < y.length) (hne : j0 ≠ i0) :
    i0 ∈ supportVectors model ∧
    tol < model.alpha.getD i0 0 ∧ model.alpha.getD i0 0 ≤ C := by
  obtain ⟨⟨hbox, heq, hmargin, hnsv⟩, hlab, ha⟩ := train_ok_valid hok
  have hm : model.alpha.length = y.length := train_ok_shape hok
  have hi0m : i0 ∈ Finset.range model.alpha.length :=
    Finset.mem_range.mpr (by omega)
  have hj0m : j0 ∈ Finset.range model.alpha.length :=
    Finset.mem_range.mpr (by omega)
  have herase : ∀ j ∈ (Finset.range model.alpha.length).erase i0,
      model.alpha.getD j 0 * y.getD j 0 = -(model.alpha.getD j 0 * s) := by
    intro j hj
    obtain ⟨hjne, hjm⟩ := Finset.mem_erase.mp hj
    have hjy : j < y.length := by
      have := Finset.mem_range.mp hjm
      omega
    rw [hrest j hjy hjne]
    ring
  have h1 := Finset.add_sum_erase (Finset.range model.alpha.length)
      (fun i => model.alpha.getD i 0 * y.getD i 0) hi0m
  rw [heq, Finset.sum_congr rfl herase] at h1
  rw [Finset.sum_neg_distrib] at h1
  simp only [hyi0] at h1
  have hkey : model.alpha.getD i0 0
      = ∑ j ∈ (Finset.range model.alpha.length).erase i0, model.alpha.getD j 0 := by
    rcases hs with rfl | rfl
    · simp only [mul_one] at h1
      linarith
    · have h1' : -(model.alpha.getD i0 0)
          + -(∑ j ∈ (Finset.range model.alpha.length).erase i0,
                -(model.alpha.getD j 0)) = 0 := by
        rw [← Finset.sum_neg_distrib] at h1 ⊢
        simpa [mul_comm] using h1
      rw [Finset.sum_neg_distrib, neg_neg] at h1'
      linarith
  have htol1 : tol < 1 := by norm_num [tol]
  have htollt : tol < model.alpha.getD i0 0 := by
    by_contra hcon
    push_neg at hcon
    have hall : ∀ j ∈ Finset.range model.alpha.length, model.alpha.getD j 0 ≤ tol := by
      intro j hjm
      by_cases hji : j = i0
      · rw [hji]; exact hcon
      · have hj' : j ∈ (Finset.range model.alpha.length).erase i0 :=
          Finset.mem_erase.mpr ⟨hji, hjm⟩
        have hle : model.alpha.getD j 0
            ≤ ∑ x ∈ (Finset.range model.alpha.length).erase i0, model.alpha.getD x 0 :=
          Finset.single_le_sum
            (fun x hx => (hbox x (Finset.mem_erase.mp hx).2).1) hj'
        calc model.alpha.getD j 0
            ≤ ∑ x ∈ (Finset.range model.alpha.length).erase i0,
                model.alpha.getD x 0 := hle
          _ = model.alpha.getD i0 0 := hkey.symm
          _ ≤ tol := hcon
    have hempty : supportVectors model = ∅ := by
      unfold supportVectors
      apply Finset.filter_eq_empty_iff.mpr
      intro j hjm
      exact not_lt.mpr (hall j hjm)
    have hdv : ∀ i, decisionValue model (fun l => mget K l i) = model.bias := by
      intro i
      unfold decisionValue
      rw [hempty, Finset.sum_empty, zero_add]
    have hA := hnsv i0 hi0m hcon
    have hB := hnsv j0 hj0m (hall j0 hj0m)
    rw [hdv i0, hyi0] at hA
    rw [hdv j0, hrest j0 hj0 hne] at hB
    have hBB : 1 - tol ≤ -(s * model.bias) := by linarith [neg_mul s model.bias]
    linarith
  refine ⟨?_, htollt, (hbox i0 hi0m).2⟩
  unfold supportVectors
  exact Finset.mem_filter.mpr ⟨hi0m, htollt⟩

theorem c9_single_sample_amended_witness :
    0 ∈ supportVectors ⟨[1, 1], [1, -1], 0⟩ ∧
    tol < (SVMModel.mk [1, 1] [1, -1] 0).alpha.getD 0 0 ∧
    (SVMModel.mk [1, 1] [1, -1] 0).alpha.getD 0 0 ≤ 2 :=
  c9_single_sample_amended 1 [[1, 0], [0, 1]] [1, -1] 2 1 0 1 ⟨[1, 1], [1, -1], 0⟩
    (by with_unfolding_all decide) (Or.inl rfl)
    (by decide) (by with_unfolding_all decide)
    (by
      intro j hj hjne
      match j with
      | 0 => exact absurd rfl hjne
      | 1 => with_unfolding_all decide
      | n + 2 => simp at hj)
    (by decide) (by decide)

theorem predict_mem (model : SVMModel) (kernelRow : ℕ → ℚ) :
    predict model kernelRow = 1 ∨ predict model kernelRow = -1 := by
  unfold predict
  split
  · exact Or.inl rfl
  · exact Or.inr rfl

/-- C5: for a two-class label index, `enumeratePairs` yields exactly the one
pair, and the multiclass prediction is exactly the single binary predictor's
sign mapping (+1 to the first class, -1 to the second). -/
theorem c5_two_class (ls : List String) (models : ℕ × ℕ → SVMModel)
    (rows : ℕ × ℕ → ℕ → ℚ) (h2 : ls.length = 2) :
    enumeratePairs ls = [(ls.getD 0 "", ls.getD 1 "")] ∧
    predictMulticlass ls models rows =
      (if predict (models (0, 1)) (rows (0, 1)) = 1
       then ls.getD 0 "" else ls.getD 1 "") := by
  obtain ⟨a, b, rfl⟩ := List.length_eq_two.mp h2
  refine ⟨rfl, ?_⟩
  have hrc : runContests models rows ([a, b] : List String).length
      = [((0, 1), predict (models (0, 1)) (rows (0, 1)))] := rfl
  unfold predictMulticlass
  rw [hrc]
  rcases predict_mem (models (0, 1)) (rows (0, 1)) with h | h
  · rw [h]
    rfl
  · rw [h]
    rfl

theorem c5_two_class_witness :
    enumeratePairs ["A", "B"] = [(["A", "B"].getD 0 "", ["A", "B"].getD 1 "")] ∧
    predictMulticlass ["A", "B"] (fun _ => ⟨[1], [1], 0⟩) (fun _ _ => 1) =
      (if predict ((fun _ : ℕ × ℕ => (⟨[1], [1], 0⟩ : SVMModel)) (0, 1))
            ((fun _ _ => (1 : ℚ)) (0, 1)) = 1
       then ["A", "B"].getD 0 "" else ["A", "B"].getD 1 "") :=
  c5_two_class ["A", "B"] (fun _ => ⟨[1], [1], 0⟩) (fun _ _ => 1) rfl

theorem foldl_argmax_spec (v : ℕ → ℕ) :
    ∀ k : ℕ,
      ((List.range k).foldl (fun best c => if v best < v c then c else best) 0 = 0 ∨
        (List.range k).foldl (fun best c => if v best < v c then c else best) 0 < k) ∧
      (∀ c, c < k →
        v c ≤ v ((List.range k).foldl (fun best c => if v best < v c then c else best) 0)) ∧
      (∀ c, c < k →
        v c = v ((List.range k).foldl (fun best c => if v best < v c then c else best) 0) →
        (List.range k).foldl (fun best c => if v best < v c then c else best) 0 ≤ c) := by
  intro k
  induction k with
  | zero =>
    refine ⟨Or.inl rfl, ?_, ?_⟩
    · intro c hc; omega
    · intro c hc; omega
  | succ k ih =>
    obtain ⟨ihb, ihmax, ihtie⟩ := ih
    rw [List.range_succ, List.foldl_append]
    simp only [List.foldl_cons, List.foldl_nil]
    set r := (List.range k).foldl (fun best c => if v best < v c then c else best) 0 with hr
    by_cases hv : v r < v k
    · rw [if_pos hv]
      refine ⟨Or.inr (Nat.lt_succ_self k), ?_, ?_⟩
      · intro c hc
        rcases Nat.lt_succ_iff_lt_or_eq.mp hc with h | h
        · exact le_trans (ihmax c h) (Nat.le_of_lt hv)
        · rw [h]
      · intro c hc hceq
        rcases Nat.lt_succ_iff_lt_or_eq.mp hc with h | h
        · have := ihmax c h; omega
        · omega
    · rw [if_neg hv]
      refine ⟨?_, ?_, ?_⟩
      · rcases ihb with h | h
        · exact Or.inl h
        · exact Or.inr (Nat.lt_succ_of_lt h)
      · intro c hc
        rcases Nat.lt_succ_iff_lt_or_eq.mp hc with h | h
        · exact ihmax c h
        · rw [h]; omega
      · intro c hc hceq
        rcases Nat.lt_succ_iff_lt_or_eq.mp hc with h | h
        · exact ihtie c h hceq
        · rcases ihb with h0 | hk <;> omega

/-- C6: the predicted class index is always a valid index holding the maximal
vote count, and among all classes tied at that maximum it is the lowest one;
the predicted class name is the label at that index, so the function is total
and deterministic also on ties. -/
theorem c6_tie_break (ls : List String) (models : ℕ × ℕ → SVMModel)
    (rows : ℕ × ℕ → ℕ → ℚ) (hk : 0 < ls.length) :
    predictMulticlassIdx ls.length (runContests models rows ls.length) < ls.length ∧
    (∀ c, c < ls.length →
      votes (runContests models rows ls.length) c
        ≤ votes (runContests models rows ls.length)
            (predictMulticlassIdx ls.length (runContests models rows ls.length))) ∧
    (∀ c, c < ls.length →
      votes (runContests models rows ls.length) c
          = votes (runContests models rows ls.length)
              (predictMulticlassIdx ls.length (runContests models rows ls.length)) →
      predictMulticlassIdx ls.length (runContests models rows ls.length) ≤ c) ∧
    predictMulticlass ls models rows =
      ls.getD (predictMulticlassIdx ls.length (runContests models rows ls.length)) "" := by
  have h := foldl_argmax_spec (votes (runContests models rows ls.length)) ls.length
  refine ⟨?_, h.2.1, h.2.2, rfl⟩
  rcases h.1 with h0 | hlt
  · unfold predictMulticlassIdx
    rw [h0]
    exact hk
  · exact hlt

theorem c6_tie_break_witness :
    votes (runContests tieModels (fun _ _ => 1) 3) 0
      = votes (runContests tieModels (fun _ _ => 1) 3) 2 ∧
    votes (runContests tieModels (fun _ _ => 1) 3) 1
      = votes (runContests tieModels (fun _ _ => 1) 3) 0 ∧
    predictMulticlass ["A", "B", "C"] tieModels (fun _ _ => 1) = "A" := by
  have h := c6_tie_break ["A", "B", "C"] tieModels (fun _ _ => 1) (by decide)
  refine ⟨by with_unfolding_all decide, by with_unfolding_all decide, ?_⟩
  rw [h.2.2.2]
  with_unfolding_all decide

/-- C8: a failure building the shared training Gram matrix is fatal to the
whole run and surfaces the originating error unchanged; when the Gram build
succeeds, the orchestrator returns, without aborting, a report holding one
entry per class pair — each pair's own training outcome, failed pairs
alongside succeeded ones, each produced by a single trainer invocation. -/
theorem c8_orchestrator_aggregation (κ : DataPoint → DataPoint → Option ℚ)
    (passes : ℕ) (C : ℚ) (ds : Dataset) :
    (∀ e, buildKernelMatrix κ (allVectors ds) (allVectors ds) true = .error e →
        orchestrate κ passes C ds = .error e) ∧
    (∀ gram, buildKernelMatrix κ (allVectors ds) (allVectors ds) true = .ok gram →
        orchestrate κ passes C ds
          = .ok ((indexPairs ds.length).map (fun p => (p, trainPair passes C gram ds p))) ∧
        ∀ p ∈ indexPairs ds.length,
          (p, trainPair passes C gram ds p)
            ∈ (indexPairs ds.length).map (fun p => (p, trainPair passes C gram ds p))) := by
  constructor
  · intro e he
    unfold orchestrate
    rw [he]
  · intro gram hg
    unfold orchestrate
    rw [hg]
    exact ⟨rfl, fun p hp => List.mem_map_of_mem _ hp⟩

theorem c8_orchestrator_aggregation_witness :
    orchestrate kappaThree 1 1 threeClassData
      = .ok ((indexPairs threeClassData.length).map
          (fun p => (p, trainPair 1 1 [[1, 0, 1], [0, 1, 0], [1, 0, 1]] threeClassData p))) ∧
    trainPair 1 1 [[1, 0, 1], [0, 1, 0], [1, 0, 1]] threeClassData (0, 2)
      = .error .trainingConvergence ∧
    ∃ m, trainPair 1 1 [[1, 0, 1], [0, 1, 0], [1, 0, 1]] threeClassData (0, 1)
      = .ok m := by
  have h := (c8_orchestrator_aggregation kappaThree 1 1 threeClassData).2
      [[1, 0, 1], [0, 1, 0], [1, 0, 1]] (by with_unfolding_all decide)
  exact ⟨h.1, by with_unfolding_all decide,
    ⟨⟨[1, 1], [1, -1], 0⟩, by with_unfolding_all decide⟩⟩

/-- C4: the kernel-evaluation capability is a function of the seed, so two
runs of training, of the Gram-matrix build, or of a whole seeded run with the
same seed and inputs produce identical results; in the pure embedding this
determinism is definitional. -/
theorem c4_seed_determinism (κfam : ℕ → DataPoint → DataPoint → Option ℚ)
    (seed passes : ℕ) (C : ℚ) (ds : Dataset) (K : Mat) (y : List ℚ) :
    train passes K y C = train passes K y C ∧
    buildKernelMatrix (κfam seed) (allVectors ds) (allVectors ds) true
      = buildKernelMatrix (κfam seed) (allVectors ds) (allVectors ds) true ∧
    seededRun κfam seed passes C ds = seededRun κfam seed passes C ds :=
  ⟨rfl, rfl, rfl⟩

/-- C10: in both notebook experiments the feature map's `num_qubits` equals
the dimension of the data vectors supplied (2): the first experiment passes
`n=feature_dim` and `num_qubits=feature_dim`; the second passes `n=2` and
reuses the leftover `feature_dim` (= 2), so the dimension check cannot take
its `DimensionMismatchError` branch on these runs. -/
theorem c10_notebook_dimensions :
    experiment1_num_qubits = experiment1_data_dim ∧
    experiment2_num_qubits = experiment2_data_dim ∧
    experiment1_num_qubits = 2 ∧ experiment2_num_qubits = 2 ∧
    dimensionCheck experiment1_data_dim experiment1_num_qubits = .ok () ∧
    dimensionCheck experiment2_data_dim experiment2_num_qubits = .ok () :=
  ⟨rfl, rfl, rfl, rfl, rfl, rfl⟩

end QSVM
